import Mathlib

/-
Verification development for the markdown-it KaTeX plugin.

The source buffer is embedded as a list of characters.  JavaScript string
primitives used by the plugin are embedded as total Lean functions on
lists of characters:

  - charCodeAt returns the code of the character, or a sentinel for an
    out-of-range index.  JavaScript returns NaN there; every comparison
    performed on NaN in the source (equality with 32 or 9, range test
    against 48 and 57) is false, exactly as for the -1 sentinel the
    source already uses for a missing neighbour, so the sentinel -1 is an
    observationally equivalent embedding of both.
  - slice receives integer bounds and clamps them the way
    String.prototype.slice does, negative indices counting from the end.
  - trim drops leading and trailing whitespace.
  - indexOf and lastIndexOf scan for a character, or for the two
    character marker, from a given position.

Loops of the source are embedded as structurally recursive functions.
Where a loop is bounded by the buffer or by the line range, the
recursion carries an explicit fuel argument that provably dominates the
number of iterations, so every definition is executable and reducible by
the kernel.
-/

/-- Code of the character at index i, as read by charCodeAt; -1 stands for
the NaN produced by an out-of-range read (see the header comment). -/
def jsCharCodeAt (src : List Char) (i : Nat) : Int :=
  match src.get? i with
  | some c => (c.toNat : Int)
  | none => -1

/-- JavaScript String.prototype.slice on a character list: negative
bounds count from the end, and the bounds are clamped to the string. -/
def jsSlice (l : List Char) (a b : Int) : List Char :=
  let len : Int := l.length
  let a' : Int := if a < 0 then max (len + a) 0 else min a len
  let b' : Int := if b < 0 then max (len + b) 0 else min b len
  if a' < b' then (l.drop a'.toNat).take (b' - a').toNat else []

/-- slice with only a start argument: slice(a) = slice(a, length). -/
def jsSliceFrom (l : List Char) (a : Int) : List Char :=
  jsSlice l a l.length

/-- The character class removed by String.prototype.trim, per the
ECMAScript definition: WhiteSpace (TAB, VT, FF, SP, NBSP, ZWNBSP and
the Unicode Space_Separator category) together with LineTerminator
(LF, CR, LS, PS). -/
def isJsSpace (c : Char) : Bool :=
  [0x09, 0x0A, 0x0B, 0x0C, 0x0D, 0x20, 0xA0, 0x1680,
   0x2000, 0x2001, 0x2002, 0x2003, 0x2004, 0x2005, 0x2006, 0x2007,
   0x2008, 0x2009, 0x200A, 0x2028, 0x2029, 0x202F, 0x205F, 0x3000,
   0xFEFF].contains c.toNat

/-- JavaScript String.prototype.trim on a character list. -/
def jsTrim (l : List Char) : List Char :=
  ((l.dropWhile isJsSpace).reverse.dropWhile isJsSpace).reverse

/-- Replaces every occurrence of the character c by the string r; this is
the effect of one chained global replace of the source escapeHtml. -/
def replaceChar (s : String) (c : Char) (r : String) : String :=
  String.mk ((s.data.map (fun x => if x = c then r.data else [x])).flatten)

/-- The escapeHtml helper: five chained global replacements, ampersand
first, then angle brackets, double quote and single quote. -/
def escapeHtml (u : String) : String :=
  replaceChar
    (replaceChar
      (replaceChar
        (replaceChar
          (replaceChar u '&' "&amp;")
          '<' "&lt;")
        '>' "&gt;")
      '"' "&quot;")
    (Char.ofNat 39) "&#039;"

/-- Result record of the delimiter classifier. -/
structure DelimiterResult where
  can_open : Bool
  can_close : Bool
deriving DecidableEq

/-- The isValidDelimiter classifier: prevChar is the code before pos (or
-1 at the start), nextChar the code after pos (or -1 past posMax).
Closing is refused after a space or tab or before an ASCII digit;
opening is refused before a space or tab. -/
def isValidDelimiter (src : List Char) (posMax : Nat) (pos : Nat) : DelimiterResult :=
  let prevChar : Int := if 0 < pos then jsCharCodeAt src (pos - 1) else -1
  let nextChar : Int := if pos + 1 ≤ posMax then jsCharCodeAt src (pos + 1) else -1
  let can_close : Bool :=
    if prevChar = 32 || prevChar = 9 || (48 ≤ nextChar && nextChar ≤ 57) then false else true
  let can_open : Bool :=
    if nextChar = 32 || nextChar = 9 then false else true
  { can_open := can_open, can_close := can_close }

/-- Length of the maximal run of backslashes immediately before index m. -/
def bsRunBefore (src : List Char) : Nat → Nat
  | 0 => 0
  | m + 1 => if src.get? m = some '\\' then bsRunBefore src m + 1 else 0

/-- Final value of pos after the backward escape-skipping loop of
math_inline: the loop starts at m - 1 and decrements while it reads a
backslash, so it ends one below the run of backslashes before m (the
value is -1 when that run reaches the start of the buffer). -/
def skipEscapes (src : List Char) (m : Nat) : Int :=
  (m : Int) - 1 - (bsRunBefore src m : Int)

/-- Fueled scan for the first occurrence of a character at an index of at
least i; the fuel dominates the number of remaining indices. -/
def indexOfFromAux (src : List Char) (t : Char) : Nat → Nat → Option Nat
  | 0, _ => none
  | fuel + 1, i =>
    match src.get? i with
    | none => none
    | some c => if c = t then some i else indexOfFromAux src t fuel (i + 1)

/-- JavaScript String.prototype.indexOf for a single character, from
position i. -/
def indexOfFrom (src : List Char) (t : Char) (i : Nat) : Option Nat :=
  indexOfFromAux src t (src.length + 1) i

/-- The forward search loop of math_inline: find the next dollar, run the
backward escape scan, accept when match - pos is odd (an even number of
backslashes), otherwise resume just after the candidate.  The fuel
dominates the number of candidate positions. -/
def findCloseAux (src : List Char) : Nat → Nat → Option Nat
  | 0, _ => none
  | fuel + 1, m =>
    match indexOfFrom src '$' m with
    | none => none
    | some j =>
      if ((j : Int) - skipEscapes src j) % 2 = 1 then some j
      else findCloseAux src fuel (j + 1)

/-- Entry point of the forward search, starting at the given position. -/
def findClose (src : List Char) (start : Nat) : Option Nat :=
  findCloseAux src (src.length + 1) start

/-- An inline token as pushed by state.push with type math_inline, tag
math and nesting 0, then given markup and content. -/
structure InlineToken where
  type : String
  tag : String
  nesting : Int
  markup : String
  content : String
deriving DecidableEq

/-- The inline parser state: immutable source, cursor, posMax, the
pending literal-text buffer and the token list. -/
structure InlineState where
  src : List Char
  pos : Nat
  posMax : Nat
  pending : String
  tokens : List InlineToken
deriving DecidableEq

/-- The math_inline rule.  Every branch mirrors the source: reject when
the cursor is not on a dollar; consume a lone dollar when it cannot
open; search for an unescaped closing dollar; fall back to literal text
when there is none, when the content is empty, or when the candidate
cannot close; otherwise push one token and move the cursor past the
candidate.  Appends to pending and the token push are gated on commit
mode; every cursor update happens in both modes. -/
def math_inline (state : InlineState) (silent : Bool) : Bool × InlineState :=
  if state.src.get? state.pos ≠ some '$' then (false, state)
  else if (isValidDelimiter state.src state.posMax state.pos).can_open = false then
    (true, { state with
             pending := if silent then state.pending else state.pending ++ "$",
             pos := state.pos + 1 })
  else
    let start := state.pos + 1
    match findClose state.src start with
    | none =>
      (true, { state with
               pending := if silent then state.pending else state.pending ++ "$",
               pos := start })
    | some m =>
      if (m : Int) - (start : Int) = 0 then
        (true, { state with
                 pending := if silent then state.pending else state.pending ++ "$$",
                 pos := start + 1 })
      else if (isValidDelimiter state.src state.posMax m).can_close = false then
        (true, { state with
                 pending := if silent then state.pending else state.pending ++ "$",
                 pos := start })
      else
        (true, { state with
                 tokens := if silent then state.tokens else
                   state.tokens ++ [{ type := "math_inline", tag := "math", nesting := 0,
                                      markup := "$",
                                      content := String.mk (jsSlice state.src (start : Int) (m : Int)) }],
                 pos := m + 1 })

/-- A block token as pushed by state.push with type math_block, tag math
and nesting 0, then given block, content, map and markup. -/
structure BlockToken where
  type : String
  tag : String
  nesting : Int
  block : Bool
  content : String
  map : Nat × Nat
  markup : String
deriving DecidableEq

/-- The block parser state: source, per-line begin and end offsets, the
indentation shift of each line, the enclosing required indentation, the
current line pointer and the token list. -/
structure BlockState where
  src : List Char
  bMarks : List Nat
  eMarks : List Nat
  tShift : List Nat
  blkIndent : Nat
  line : Nat
  tokens : List BlockToken
deriving DecidableEq

/-- Offset of the first content character of line n, as computed by
bMarks[n] + tShift[n]. -/
abbrev lineStart (s : BlockState) (n : Nat) : Nat :=
  s.bMarks.getD n 0 + s.tShift.getD n 0

/-- Offset one past the last character of line n, as read from eMarks. -/
abbrev lineEnd (s : BlockState) (n : Nat) : Nat :=
  s.eMarks.getD n 0

/-- The stopping test of the scan loop: a non-empty line whose
indentation is below the enclosing required indentation. -/
abbrev stopCond (s : BlockState) (n : Nat) : Prop :=
  lineStart s n < lineEnd s n ∧ s.tShift.getD n 0 < s.blkIndent

/-- The closing test of the scan loop: the trimmed text of line n ends
with the two-dollar marker. -/
abbrev closeCond (s : BlockState) (n : Nat) : Prop :=
  jsSliceFrom (jsTrim (jsSlice s.src (lineStart s n : Int) (lineEnd s n : Int))) (-2) = ['$', '$']

/-- Fueled descent for lastIndexOf of the two-dollar marker: checks the
start position k - 1 and walks down. -/
def lastIndexOfDDAux (l : List Char) : Nat → Int
  | 0 => -1
  | k + 1 =>
    if l.get? k = some '$' ∧ l.get? (k + 1) = some '$' then (k : Int)
    else lastIndexOfDDAux l k

/-- JavaScript lastIndexOf of the two-character marker on a list. -/
def lastIndexOfDD (l : List Char) : Int :=
  lastIndexOfDDAux l l.length

/-- The forward line loop of math_block.  Each iteration first advances
the candidate line, then exits at the end of the range, then exits at a
non-empty underindented line, then tests for a closing marker, computing
the last-line content from the last occurrence of the marker.  The fuel
dominates the number of remaining lines. -/
def blockLoopAux (s : BlockState) (endLine : Nat) : Nat → Nat → Nat × Option (List Char)
  | 0, next => (next, none)
  | fuel + 1, next =>
    let n := next + 1
    if endLine ≤ n then (n, none)
    else if stopCond s n then (n, none)
    else if closeCond s n then
      (n, some (jsSlice s.src (lineStart s n : Int)
                 (lastIndexOfDD (jsSlice s.src 0 (lineEnd s n : Int)))))
    else blockLoopAux s endLine fuel n

/-- Entry point of the line loop, with sufficient fuel for the range. -/
def blockLoop (s : BlockState) (endLine : Nat) (next : Nat) : Nat × Option (List Char) :=
  blockLoopAux s endLine (endLine + 1) next

/-- Drops up to indent leading space characters from a line. -/
def dropIndent : Nat → List Char → List Char
  | 0, l => l
  | _, [] => []
  | n + 1, c :: rest => if c = ' ' then dropIndent n rest else c :: rest

/-- Fueled accumulation of lines i, i+1, ... for getLines. -/
def getLinesAux (s : BlockState) (indent : Nat) : Nat → Nat → String
  | _, 0 => ""
  | i, cnt + 1 =>
    String.mk (dropIndent indent
      (jsSlice s.src (s.bMarks.getD i 0 : Int) (s.eMarks.getD i 0 : Int)) ++ ['\n'])
      ++ getLinesAux s indent (i + 1) cnt

/-- Modelled from the spec: the host tokenizer primitive
state.getLines(begin, end, indent, keepLastLF) belongs to the external
markdown-it StateBlock and its code is not among the sources of this
repository.  Following the spec, the lines strictly between the opening
and closing line are included verbatim, dedented by the enclosing
indentation; the source always calls it with keepLastLF set, so each
included line contributes its text followed by a newline. -/
def getLines (s : BlockState) (b e indent : Nat) : String :=
  getLinesAux s indent b (e - b)

/-- Builds the token pushed by math_block: content is the non-blank
first-line text plus newline, then the middle lines, then the non-blank
last-line text; map spans from the opening line to the final line
pointer. -/
def mkBlockToken (s : BlockState) (start next : Nat)
    (firstLine : List Char) (lastLine : Option (List Char)) : BlockToken :=
  { type := "math_block", tag := "math", nesting := 0, block := true,
    content :=
      (if jsTrim firstLine ≠ [] then String.mk firstLine ++ "\n" else "")
        ++ getLines s (start + 1) next (s.tShift.getD start 0)
        ++ (match lastLine with
            | none => ""
            | some l => if jsTrim l ≠ [] then String.mk l else ""),
    map := (start, next + 1), markup := "$$" }

/-- The math_block rule.  Rejects unless the first line opens with the
two-dollar marker; in probe mode reports success at once; in commit mode
recognises a single-line block when the first line also closes,
otherwise runs the line loop, then sets the line pointer one past the
final candidate line and pushes one block token. -/
def math_block (s : BlockState) (start endLine : Nat) (silent : Bool) : Bool × BlockState :=
  let pos := lineStart s start
  let maxP := lineEnd s start
  if maxP < pos + 2 then (false, s)
  else if jsSlice s.src (pos : Int) ((pos : Int) + 2) ≠ ['$', '$'] then (false, s)
  else
    let firstLine := jsSlice s.src ((pos : Int) + 2) (maxP : Int)
    if silent then (true, s)
    else
      let r :=
        if jsSliceFrom (jsTrim firstLine) (-2) = ['$', '$'] then
          (start, jsSlice (jsTrim firstLine) 0 (-2), (none : Option (List Char)))
        else
          let lr := blockLoop s endLine start
          (lr.1, firstLine, lr.2)
      (true, { s with
               line := r.1 + 1,
               tokens := s.tokens ++ [mkBlockToken s start r.1 r.2.1 r.2.2] })

/-- Outcome of one call of the external typesetting engine. -/
inductive EngineResult where
  | ok (markup : String)
  | err (description : String)
deriving DecidableEq

/-- The external engine renderToString, abstracted over the arguments the
plugin varies per call: the expression text, the resolved throwOnError
flag merged into the options, and the displayMode flag (false for
inline, true for block).  The remaining pass-through options are fixed
inside the engine value. -/
def Engine : Type := String → Bool → Bool → EngineResult

/-- The user-facing plugin options used by the renderers.  throwOnError
is either absent, a boolean, or a predicate on the environment; a
missing blockWrapper is defaulted at plugin installation. -/
structure Options (Env : Type) where
  blockWrapper : Option String := none
  throwOnError : Option (Bool ⊕ (Env → Bool)) := none
  errorColor : Option String := none

/-- Resolution of throwOnError for one render call: a function is
applied to the environment, anything else is coerced to a boolean, the
absent value giving false. -/
def resolveThrowOnError {Env : Type} : Option (Bool ⊕ (Env → Bool)) → Env → Bool
  | none, _ => false
  | some (Sum.inl b), _ => b
  | some (Sum.inr f), env => f env

/-- The option defaulting performed once at plugin installation:
blockWrapper falls back to div. -/
def applyDefaults {Env : Type} (o : Options Env) : Options Env :=
  { o with blockWrapper := some (o.blockWrapper.getD ("div")) }

/-- JavaScript string interpolation of a possibly absent value. -/
def jsStr : Option String → String
  | none => "undefined"
  | some s => s

/-- Failures a renderer can propagate: the engine error rethrown with the
source text attached to its diagnostics, the object thrown by the legacy
variant, or the TypeError raised when escapeHtml is applied to an
undefined errorColor. -/
inductive RenderFailure where
  | katexError (description : String) (source : String)
  | legacyError (message : String) (source : String) (description : String)
  | typeError (description : String)
deriving DecidableEq

/-- The renderInline rule of the primary implementation: resolve
throwOnError, call the engine with displayMode false; on success append
a newline; on failure rethrow with the source text attached when the
resolved flag is set, otherwise build the fallback span.  Building the
span evaluates escapeHtml on options.errorColor first, which raises a
TypeError when no error colour was configured. -/
def renderInline {Env : Type} (engine : Engine) (options : Options Env)
    (env : Env) (maths : String) : Except RenderFailure String :=
  let throwOnError := resolveThrowOnError options.throwOnError env
  match engine maths throwOnError false with
  | EngineResult.ok rendered => Except.ok (rendered ++ "\n")
  | EngineResult.err description =>
    if throwOnError then Except.error (RenderFailure.katexError description maths)
    else
      match options.errorColor with
      | none => Except.error (RenderFailure.typeError "TypeError: options.errorColor is undefined")
      | some color =>
        Except.ok ("<span class=\"katex-error\" style=\"color:" ++ escapeHtml color
          ++ "\" title=\"" ++ escapeHtml description ++ "\">" ++ escapeHtml maths ++ "</span>")

/-- The renderBlock rule of the primary implementation: resolve
throwOnError, call the engine with displayMode true; on success wrap the
output in the configured block wrapper with class katex-block; on
failure rethrow with the source attached when the resolved flag is set,
otherwise build the fallback block element. -/
def renderBlock {Env : Type} (engine : Engine) (options : Options Env)
    (env : Env) (maths : String) : Except RenderFailure String :=
  let throwOnError := resolveThrowOnError options.throwOnError env
  let wrapper := jsStr options.blockWrapper
  match engine maths throwOnError true with
  | EngineResult.ok rendered =>
    Except.ok ("<" ++ wrapper ++ " class=\"katex-block\">\n" ++ rendered
      ++ "\n</" ++ wrapper ++ ">\n")
  | EngineResult.err description =>
    if throwOnError then Except.error (RenderFailure.katexError description maths)
    else
      Except.ok ("<" ++ wrapper ++ " class=\"katex-block katex-error\" title=\""
        ++ escapeHtml description ++ "\">" ++ escapeHtml maths ++ "</" ++ wrapper ++ ">")

namespace Legacy

/-- The isValidDelim classifier of the duplicated legacy source file; its
text is character for character the classifier of the primary file. -/
def isValidDelim (src : List Char) (posMax : Nat) (pos : Nat) : DelimiterResult :=
  let prevChar : Int := if 0 < pos then jsCharCodeAt src (pos - 1) else -1
  let nextChar : Int := if pos + 1 ≤ posMax then jsCharCodeAt src (pos + 1) else -1
  let can_close : Bool :=
    if prevChar = 32 || prevChar = 9 || (48 ≤ nextChar && nextChar ≤ 57) then false else true
  let can_open : Bool :=
    if nextChar = 32 || nextChar = 9 then false else true
  { can_open := can_open, can_close := can_close }

/-- The math_inline rule of the legacy source file; its text coincides
with the primary rule, so the embedding repeats the same body over the
same helper functions, with its own classifier. -/
def math_inline (state : InlineState) (silent : Bool) : Bool × InlineState :=
  if state.src.get? state.pos ≠ some '$' then (false, state)
  else if (isValidDelim state.src state.posMax state.pos).can_open = false then
    (true, { state with
             pending := if silent then state.pending else state.pending ++ "$",
             pos := state.pos + 1 })
  else
    let start := state.pos + 1
    match findClose state.src start with
    | none =>
      (true, { state with
               pending := if silent then state.pending else state.pending ++ "$",
               pos := start })
    | some m =>
      if (m : Int) - (start : Int) = 0 then
        (true, { state with
                 pending := if silent then state.pending else state.pending ++ "$$",
                 pos := start + 1 })
      else if (isValidDelim state.src state.posMax m).can_close = false then
        (true, { state with
                 pending := if silent then state.pending else state.pending ++ "$",
                 pos := start })
      else
        (true, { state with
                 tokens := if silent then state.tokens else
                   state.tokens ++ [{ type := "math_inline", tag := "math", nesting := 0,
                                      markup := "$",
                                      content := String.mk (jsSlice state.src (start : Int) (m : Int)) }],
                 pos := m + 1 })

/-- The math_block rule of the legacy source file; its text coincides
with the primary rule, so the embedding repeats the same body over the
same helper functions. -/
def math_block (s : BlockState) (start endLine : Nat) (silent : Bool) : Bool × BlockState :=
  let pos := lineStart s start
  let maxP := lineEnd s start
  if maxP < pos + 2 then (false, s)
  else if jsSlice s.src (pos : Int) ((pos : Int) + 2) ≠ ['$', '$'] then (false, s)
  else
    let firstLine := jsSlice s.src ((pos : Int) + 2) (maxP : Int)
    if silent then (true, s)
    else
      let r :=
        if jsSliceFrom (jsTrim firstLine) (-2) = ['$', '$'] then
          (start, jsSlice (jsTrim firstLine) 0 (-2), (none : Option (List Char)))
        else
          let lr := blockLoop s endLine start
          (lr.1, firstLine, lr.2)
      (true, { s with
               line := r.1 + 1,
               tokens := s.tokens ++ [mkBlockToken s start r.1 r.2.1 r.2.2] })

/-- Truthiness of the raw throwOnError option as the legacy variant uses
it: it never calls the predicate form, a function object simply being
truthy. -/
def truthy {Env : Type} : Option (Bool ⊕ (Env → Bool)) → Bool
  | none => false
  | some (Sum.inl b) => b
  | some (Sum.inr _) => true

/-- The katexInline renderer of the legacy variant: no trailing newline
on success; on failure either throws its own object carrying the source
text, or falls back to a span with single-quoted attributes and no
error colour styling. -/
def katexInline {Env : Type} (engine : Engine) (options : Options Env)
    (latex : String) : Except RenderFailure String :=
  let toe := truthy options.throwOnError
  match engine latex toe false with
  | EngineResult.ok r => Except.ok r
  | EngineResult.err description =>
    if toe then Except.error (RenderFailure.legacyError "KaTeX error" latex description)
    else
      Except.ok ("<span class='katex-error' title='" ++ escapeHtml description
        ++ "'>" ++ escapeHtml latex ++ "</span>")

/-- The katexBlock renderer of the legacy variant: a fixed paragraph
wrapper with class katex-block, no newlines, ignoring the blockWrapper
option. -/
def katexBlock {Env : Type} (engine : Engine) (options : Options Env)
    (latex : String) : Except RenderFailure String :=
  let toe := truthy options.throwOnError
  match engine latex toe true with
  | EngineResult.ok r =>
    Except.ok ("<p class='katex-block'>" ++ r ++ "</p>")
  | EngineResult.err description =>
    if toe then Except.error (RenderFailure.legacyError "KaTeX error" latex description)
    else
      Except.ok ("<p class='katex-block katex-error' title='"
        ++ escapeHtml description ++ "'>" ++ escapeHtml latex ++ "</p>")

end Legacy

/-- An engine stub returning its input unchanged, as in the round-trip
property of the spec. -/
def idEngine : Engine := fun s _ _ => EngineResult.ok s

/-- An engine stub that always fails with description bad, as in the
containment properties of the spec. -/
def errEngine : Engine := fun _ _ _ => EngineResult.err "bad"

/-- Plugin options with every field absent. -/
def opts0 : Options Unit := {}

/-- Block state for the unterminated input of two lines, dollars then
foo, with the usual extra sentinel line entry of the host. -/
def fooState : BlockState :=
  { src := ("$$\nfoo").data, bMarks := [0, 3, 6], eMarks := [2, 6, 6],
    tShift := [0, 0, 0], blkIndent := 0, line := 0, tokens := [] }

/-- Block state for an indented opener followed by an underindented
non-empty line: the opening line reads two spaces and the marker, the
next line reads x at indentation zero while the enclosing block requires
indentation two. -/
def cexStop : BlockState :=
  { src := ("  $$\nx").data, bMarks := [0, 5, 6], eMarks := [4, 6, 6],
    tShift := [2, 0, 0], blkIndent := 2, line := 0, tokens := [] }

theorem charInt_eq_iff (c d : Char) : ((c.toNat : Int) = (d.toNat : Int)) ↔ c = d := by
  constructor
  · intro h
    have hn : c.toNat = d.toNat := by exact_mod_cast h
    have h2 := congrArg Char.ofNat hn
    rw [Char.ofNat_toNat, Char.ofNat_toNat] at h2
    exact h2
  · intro h
    rw [h]

theorem charInt_eq_32 (a : Char) : ((a.toNat : Int) = 32) ↔ a = ' ' := by
  have h := charInt_eq_iff a ' '
  have hv : ((' '.toNat : Nat) : Int) = 32 := by decide
  rw [hv] at h
  exact h

theorem charInt_eq_9 (a : Char) : ((a.toNat : Int) = 9) ↔ a = '\t' := by
  have h := charInt_eq_iff a '\t'
  have hv : (('\t'.toNat : Nat) : Int) = 9 := by decide
  rw [hv] at h
  exact h

theorem charInt_digit (b : Char) :
    (48 ≤ (b.toNat : Int) ∧ (b.toNat : Int) ≤ 57) ↔ ('0' ≤ b ∧ b ≤ '9') := by
  constructor
  · rintro ⟨h1, h2⟩
    exact ⟨by exact_mod_cast h1, by exact_mod_cast h2⟩
  · rintro ⟨h1, h2⟩
    exact ⟨by exact_mod_cast h1, by exact_mod_cast h2⟩

theorem jsCharCodeAt_some {src : List Char} {i : Nat} {c : Char}
    (h : src.get? i = some c) : jsCharCodeAt src i = (c.toNat : Int) := by
  unfold jsCharCodeAt
  rw [h]

theorem jsCharCodeAt_none {src : List Char} {i : Nat}
    (h : src.get? i = none) : jsCharCodeAt src i = -1 := by
  unfold jsCharCodeAt
  rw [h]

/-- C2.  For every buffer and every position pos at which the delimiter
character sits, the classifier refuses closing exactly when the
character before pos is a space or tab or the character after pos is an
ASCII digit, refuses opening exactly when the character after pos is a
space or tab, and in every other case (a missing neighbour counting as
none) the corresponding flag is true.  The classifier is a pure Lean
function of the buffer and position, so it has no side effects. -/
theorem isValidDelimiter_classification (src : List Char) (pos : Nat)
    (hpos : pos < src.length) (hdollar : src.get? pos = some '$') :
    ((isValidDelimiter src src.length pos).can_close = false ↔
      ((0 < pos ∧ (src.get? (pos - 1) = some ' ' ∨ src.get? (pos - 1) = some '\t'))
        ∨ (∃ c, src.get? (pos + 1) = some c ∧ '0' ≤ c ∧ c ≤ '9')))
    ∧ ((isValidDelimiter src src.length pos).can_open = false ↔
      (src.get? (pos + 1) = some ' ' ∨ src.get? (pos + 1) = some '\t')) := by
  have hlt : pos + 1 ≤ src.length := by omega
  constructor
  · by_cases hp : 0 < pos
    · cases hprev : src.get? (pos - 1) with
      | none =>
        rw [List.get?_eq_none] at hprev
        omega
      | some a =>
        cases hnext : src.get? (pos + 1) with
        | none =>
          simp only [isValidDelimiter, if_pos hlt, if_pos hp,
            jsCharCodeAt_some hprev, jsCharCodeAt_none hnext]
          split
          · rename_i h
            simp only [Bool.or_eq_true, Bool.and_eq_true, decide_eq_true_eq] at h
            refine ⟨fun _ => ?_, fun _ => rfl⟩
            rcases h with (h | h) | h
            · exact Or.inl ⟨hp, Or.inl (congrArg some ((charInt_eq_32 a).1 h))⟩
            · exact Or.inl ⟨hp, Or.inr (congrArg some ((charInt_eq_9 a).1 h))⟩
            · exact absurd h.1 (by norm_num)
          · rename_i h
            refine ⟨fun hfalse => absurd hfalse (by simp), fun hRHS => absurd ?_ h⟩
            simp only [Bool.or_eq_true, Bool.and_eq_true, decide_eq_true_eq]
            rcases hRHS with ⟨-, hsp | htb⟩ | ⟨c, hc, hd⟩
            · exact Or.inl (Or.inl ((charInt_eq_32 a).2 (Option.some_inj.1 hsp)))
            · exact Or.inl (Or.inr ((charInt_eq_9 a).2 (Option.some_inj.1 htb)))
            · exact absurd hc (by simp)
        | some b =>
          simp only [isValidDelimiter, if_pos hlt, if_pos hp,
            jsCharCodeAt_some hprev, jsCharCodeAt_some hnext]
          split
          · rename_i h
            simp only [Bool.or_eq_true, Bool.and_eq_true, decide_eq_true_eq] at h
            refine ⟨fun _ => ?_, fun _ => rfl⟩
            rcases h with (h | h) | h
            · exact Or.inl ⟨hp, Or.inl (congrArg some ((charInt_eq_32 a).1 h))⟩
            · exact Or.inl ⟨hp, Or.inr (congrArg some ((charInt_eq_9 a).1 h))⟩
            · exact Or.inr ⟨b, rfl, (charInt_digit b).1 h⟩
          · rename_i h
            refine ⟨fun hfalse => absurd hfalse (by simp), fun hRHS => absurd ?_ h⟩
            simp only [Bool.or_eq_true, Bool.and_eq_true, decide_eq_true_eq]
            rcases hRHS with ⟨-, hsp | htb⟩ | ⟨c, hc, hd⟩
            · exact Or.inl (Or.inl ((charInt_eq_32 a).2 (Option.some_inj.1 hsp)))
            · exact Or.inl (Or.inr ((charInt_eq_9 a).2 (Option.some_inj.1 htb)))
            · obtain rfl := Option.some_inj.1 hc
              exact Or.inr ((charInt_digit b).2 hd)
    · have hpz : ¬ (0 < pos) := hp
      cases hnext : src.get? (pos + 1) with
      | none =>
        simp only [isValidDelimiter, if_pos hlt, if_neg hpz, jsCharCodeAt_none hnext]
        refine ⟨fun hfalse => ?_, fun hRHS => ?_⟩
        · norm_num at hfalse
        · rcases hRHS with ⟨h0, -⟩ | ⟨c, hc, -⟩
          · omega
          · exact absurd hc (by simp)
      | some b =>
        simp only [isValidDelimiter, if_pos hlt, if_neg hpz, jsCharCodeAt_some hnext]
        split
        · rename_i h
          simp only [Bool.or_eq_true, Bool.and_eq_true, decide_eq_true_eq] at h
          refine ⟨fun _ => ?_, fun _ => rfl⟩
          rcases h with (h | h) | h
          · exact absurd h (by norm_num)
          · exact absurd h (by norm_num)
          · exact Or.inr ⟨b, rfl, (charInt_digit b).1 h⟩
        · rename_i h
          refine ⟨fun hfalse => absurd hfalse (by simp), fun hRHS => absurd ?_ h⟩
          simp only [Bool.or_eq_true, Bool.and_eq_true, decide_eq_true_eq]
          rcases hRHS with ⟨h0, -⟩ | ⟨c, hc, hd⟩
          · omega
          · obtain rfl := Option.some_inj.1 hc
            exact Or.inr ((charInt_digit b).2 hd)
  · cases hnext : src.get? (pos + 1) with
    | none =>
      have hred : (if pos + 1 ≤ src.length then jsCharCodeAt src (pos + 1) else -1) = -1 := by
        rw [if_pos hlt, jsCharCodeAt_none hnext]
      simp only [isValidDelimiter, hred]
      refine ⟨fun hfalse => ?_, fun hRHS => ?_⟩
      · norm_num at hfalse
      · rcases hRHS with hc | hc <;> exact absurd hc (by simp)
    | some b =>
      have hred : (if pos + 1 ≤ src.length then jsCharCodeAt src (pos + 1) else -1)
          = (b.toNat : Int) := by
        rw [if_pos hlt, jsCharCodeAt_some hnext]
      simp only [isValidDelimiter, hred]
      split
      · rename_i h
        simp only [Bool.or_eq_true, decide_eq_true_eq] at h
        refine ⟨fun _ => ?_, fun _ => rfl⟩
        rcases h with h | h
        · exact Or.inl (congrArg some ((charInt_eq_32 b).1 h))
        · exact Or.inr (congrArg some ((charInt_eq_9 b).1 h))
      · rename_i h
        refine ⟨fun hfalse => absurd hfalse (by simp), fun hRHS => absurd ?_ h⟩
        simp only [Bool.or_eq_true, decide_eq_true_eq]
        rcases hRHS with hc | hc
        · exact Or.inl ((charInt_eq_32 b).2 (Option.some_inj.1 hc))
        · exact Or.inr ((charInt_eq_9 b).2 (Option.some_inj.1 hc))

theorem isValidDelimiter_classification_witness :
    ((isValidDelimiter (("a$ 1").data) (("a$ 1").data).length 1).can_open = false ↔
      ((("a$ 1").data).get? 2 = some ' ' ∨ (("a$ 1").data).get? 2 = some '\t')) :=
  (isValidDelimiter_classification (("a$ 1").data) 1 (by decide) (by decide)).2

/-- C3 counterexample.  Probing the one-character buffer consisting of a
single dollar at cursor 0 moves the cursor to 1 even in silent mode, so
a probe does not leave the scan cursor unchanged. -/
theorem math_inline_probe_moves_cursor :
    (math_inline { src := ("$").data, pos := 0, posMax := 1, pending := "", tokens := [] }
      true).2.pos ≠ 0 := by decide

/-- C3 amended.  A probe never changes the pending buffer, the token
list, the source or posMax, and it returns the same boolean and leaves
the cursor at the same place as the commit call from the same state; the
cursor itself is advanced identically in both modes, not left unchanged.
Probing is a pure function of the state, so repeated probes from the
same state return the same result. -/
theorem math_inline_probe_frame (s : InlineState) :
    ((math_inline s true).2.pending = s.pending)
    ∧ ((math_inline s true).2.tokens = s.tokens)
    ∧ ((math_inline s true).2.src = s.src)
    ∧ ((math_inline s true).2.posMax = s.posMax)
    ∧ ((math_inline s true).1 = (math_inline s false).1)
    ∧ ((math_inline s true).2.pos = (math_inline s false).2.pos) := by
  simp only [math_inline]
  split
  · simp
  · split
    · simp
    · split
      · simp
      · split
        · simp
        · split
          · simp
          · simp

theorem bsRunBefore_le (src : List Char) : ∀ m : Nat, bsRunBefore src m ≤ m := by
  intro m
  induction m with
  | zero => simp [bsRunBefore]
  | succ m ih =>
    simp only [bsRunBefore]
    split
    · omega
    · omega

theorem bsRunBefore_all (src : List Char) :
    ∀ m : Nat, (∀ k, k < m → src.get? k = some '\\') → bsRunBefore src m = m := by
  intro m
  induction m with
  | zero => simp [bsRunBefore]
  | succ m ih =>
    intro h
    simp only [bsRunBefore]
    rw [if_pos (h m (by omega))]
    rw [ih (fun k hk => h k (by omega))]

/-- C10.  The backward escape-skipping loop is embedded by the total
function skipEscapes, whose totality is the loop termination; its result
is never below -1 and always below the candidate position, and when the
candidate is preceded only by backslashes all the way to the start of
the buffer the index descends to -1 (the out-of-range read yields no
backslash) and the parity test of the scanner then compares against the
full run: it accepts exactly when the number of backslashes is even. -/
theorem skipEscapes_bounds (src : List Char) (m : Nat) :
    (-1 : Int) ≤ skipEscapes src m
    ∧ skipEscapes src m < (m : Int)
    ∧ ((∀ k, k < m → src.get? k = some '\\') →
        (skipEscapes src m = -1
          ∧ ((((m : Int) - skipEscapes src m) % 2 = 1) ↔ m % 2 = 0))) := by
  have hle := bsRunBefore_le src m
  refine ⟨?_, ?_, ?_⟩
  · unfold skipEscapes
    omega
  · unfold skipEscapes
    omega
  · intro hall
    have hrun := bsRunBefore_all src m hall
    unfold skipEscapes
    rw [hrun]
    constructor
    · omega
    · omega

theorem skipEscapes_bounds_witness :
    skipEscapes (("\\\\").data) 2 = -1
    ∧ ((((2 : Nat) : Int) - skipEscapes (("\\\\").data) 2) % 2 = 1 ↔ (2 : Nat) % 2 = 0) :=
  (skipEscapes_bounds (("\\\\").data) 2).2.2 (fun k hk => by
    have hk2 : k = 0 ∨ k = 1 := by omega
    rcases hk2 with rfl | rfl <;> decide)

theorem get?_some_lt {src : List Char} {m : Nat} {c : Char}
    (h : src.get? m = some c) : m < src.length := by
  by_contra hge
  rw [not_lt] at hge
  rw [List.get?_eq_none.2 hge] at h
  cases h

theorem indexOfFromAux_some_iff (src : List Char) (t : Char) :
    ∀ (fuel i j : Nat), src.length ≤ fuel + i →
      (indexOfFromAux src t fuel i = some j ↔
        (i ≤ j ∧ src.get? j = some t ∧ ∀ k, i ≤ k → k < j → src.get? k ≠ some t)) := by
  intro fuel
  induction fuel with
  | zero =>
    intro i j hle
    simp only [indexOfFromAux]
    constructor
    · intro h
      cases h
    · rintro ⟨hij, hj, -⟩
      have := get?_some_lt hj
      omega
  | succ fuel ih =>
    intro i j hle
    simp only [indexOfFromAux]
    cases hg : src.get? i with
    | none =>
      dsimp only
      rw [List.get?_eq_none] at hg
      constructor
      · intro h
        cases h
      · rintro ⟨hij, hj, -⟩
        have := get?_some_lt hj
        omega
    | some c =>
      dsimp only
      by_cases hct : c = t
      · subst hct
        rw [if_pos rfl]
        constructor
        · intro h
          obtain rfl := Option.some_inj.1 h
          exact ⟨le_refl _, hg, fun k hk1 hk2 => by omega⟩
        · rintro ⟨hij, hj, hmin⟩
          rcases Nat.eq_or_lt_of_le hij with rfl | hlt2
          · rfl
          · exact absurd hg (hmin i (le_refl _) hlt2)
      · rw [if_neg hct]
        rw [ih (i + 1) j (by omega)]
        constructor
        · rintro ⟨hij, hj, hmin⟩
          refine ⟨by omega, hj, fun k hk1 hk2 => ?_⟩
          rcases Nat.eq_or_lt_of_le hk1 with rfl | h2
          · rw [hg]
            intro hcon
            exact hct (Option.some_inj.1 hcon)
          · exact hmin k (by omega) hk2
        · rintro ⟨hij, hj, hmin⟩
          have hij1 : i + 1 ≤ j := by
            rcases Nat.eq_or_lt_of_le hij with rfl | h2
            · rw [hg] at hj
              exact absurd (Option.some_inj.1 hj) hct
            · omega
          exact ⟨hij1, hj, fun k hk1 hk2 => hmin k (by omega) hk2⟩

theorem indexOfFromAux_none_ge (src : List Char) (t : Char) :
    ∀ (fuel i : Nat), src.length ≤ fuel + i → indexOfFromAux src t fuel i = none →
      ∀ k, i ≤ k → src.get? k ≠ some t := by
  intro fuel
  induction fuel with
  | zero =>
    intro i hle _ k hik hk
    have := get?_some_lt hk
    omega
  | succ fuel ih =>
    intro i hle hnone k hik hk
    simp only [indexOfFromAux] at hnone
    cases hg : src.get? i with
    | none =>
      rw [List.get?_eq_none] at hg
      have := get?_some_lt hk
      omega
    | some c =>
      rw [hg] at hnone
      dsimp only at hnone
      by_cases hct : c = t
      · rw [if_pos hct] at hnone
        cases hnone
      · rw [if_neg hct] at hnone
        rcases Nat.eq_or_lt_of_le hik with rfl | h2
        · rw [hg] at hk
          exact hct (Option.some_inj.1 hk)
        · exact ih (i + 1) (by omega) hnone k (by omega) hk

theorem indexOfFrom_some_iff (src : List Char) (t : Char) (i j : Nat) :
    indexOfFrom src t i = some j ↔
      (i ≤ j ∧ src.get? j = some t ∧ ∀ k, i ≤ k → k < j → src.get? k ≠ some t) :=
  indexOfFromAux_some_iff src t (src.length + 1) i j (by omega)

theorem indexOfFrom_none (src : List Char) (t : Char) (i : Nat)
    (h : indexOfFrom src t i = none) : ∀ k, i ≤ k → src.get? k ≠ some t :=
  indexOfFromAux_none_ge src t (src.length + 1) i (by omega) h

theorem parityTest_iff (src : List Char) (j : Nat) :
    (((j : Int) - skipEscapes src j) % 2 = 1) ↔ bsRunBefore src j % 2 = 0 := by
  unfold skipEscapes
  omega

theorem findCloseAux_some_iff (src : List Char) :
    ∀ (fuel lo m : Nat), src.length + 1 ≤ fuel + lo →
      (findCloseAux src fuel lo = some m ↔
        (lo ≤ m ∧ src.get? m = some '$' ∧ bsRunBefore src m % 2 = 0
          ∧ ∀ k, lo ≤ k → k < m → src.get? k = some '$' → bsRunBefore src k % 2 = 1)) := by
  intro fuel
  induction fuel with
  | zero =>
    intro lo m hle
    simp only [findCloseAux]
    constructor
    · intro h
      cases h
    · rintro ⟨hlom, hm, -, -⟩
      have := get?_some_lt hm
      omega
  | succ fuel ih =>
    intro lo m hle
    simp only [findCloseAux]
    cases hidx : indexOfFrom src '$' lo with
    | none =>
      dsimp only
      have hnone := indexOfFrom_none src '$' lo hidx
      constructor
      · intro h
        cases h
      · rintro ⟨hlom, hm, -, -⟩
        exact absurd hm (hnone m hlom)
    | some j =>
      dsimp only
      obtain ⟨hloj, hj, hmin⟩ := (indexOfFrom_some_iff src '$' lo j).1 hidx
      by_cases hpar : ((j : Int) - skipEscapes src j) % 2 = 1
      · rw [if_pos hpar]
        rw [parityTest_iff] at hpar
        constructor
        · intro h
          obtain rfl := Option.some_inj.1 h
          exact ⟨hloj, hj, hpar, fun k hk1 hk2 hk3 => absurd hk3 (hmin k hk1 hk2)⟩
        · rintro ⟨hlom, hm, hev, hminm⟩
          have hjm : j = m := by
            rcases lt_trichotomy j m with hlt | heq | hgt
            · have := hminm j hloj hlt hj
              omega
            · exact heq
            · exact absurd hm (hmin m hlom hgt)
          rw [hjm]
      · rw [if_neg hpar]
        have hoddj : bsRunBefore src j % 2 = 1 := by
          rw [parityTest_iff] at hpar
          omega
        have hjlen := get?_some_lt hj
        rw [ih (j + 1) m (by omega)]
        constructor
        · rintro ⟨hj1m, hm, hev, hminm⟩
          refine ⟨by omega, hm, hev, fun k hk1 hk2 hk3 => ?_⟩
          rcases lt_trichotomy k j with hlt | heq | hgt
          · exact absurd hk3 (hmin k hk1 hlt)
          · rw [heq]
            exact hoddj
          · exact hminm k (by omega) hk2 hk3
        · rintro ⟨hlom, hm, hev, hminm⟩
          have hjm : j ≠ m := by
            rintro rfl
            omega
          have hj1m : j + 1 ≤ m := by
            rcases lt_trichotomy j m with h1 | h1 | h1
            · omega
            · exact absurd h1 hjm
            · exact absurd hm (hmin m hlom h1)
          exact ⟨hj1m, hm, hev, fun k hk1 hk2 hk3 => hminm k (by omega) hk2 hk3⟩

theorem findClose_some_iff (src : List Char) (start m : Nat) :
    findClose src start = some m ↔
      (start ≤ m ∧ src.get? m = some '$' ∧ bsRunBefore src m % 2 = 0
        ∧ ∀ k, start ≤ k → k < m → src.get? k = some '$' → bsRunBefore src k % 2 = 1) :=
  findCloseAux_some_iff src (src.length + 1) start m (by omega)

/-- C1.  First conjunct: the forward search accepts position m exactly
when m is a dollar at or after the start position whose run of
immediately preceding backslashes has even length, while every earlier
dollar in the searched range has an odd run, so the first evenly
escaped dollar is accepted and every oddly escaped one is skipped.
Second conjunct: in commit mode, when the accepted candidate is not
adjacent to the opener and classifies as a valid closer, exactly one
math_inline token is pushed whose content is the slice strictly between
the opener and the candidate, and the cursor moves to one past the
candidate. -/
theorem math_inline_search_commit :
    (∀ (src : List Char) (start m : Nat),
      findClose src start = some m ↔
        (start ≤ m ∧ src.get? m = some '$' ∧ bsRunBefore src m % 2 = 0
          ∧ ∀ k, start ≤ k → k < m → src.get? k = some '$' → bsRunBefore src k % 2 = 1))
    ∧
    (∀ (s : InlineState) (m : Nat),
      s.src.get? s.pos = some '$' →
      (isValidDelimiter s.src s.posMax s.pos).can_open = true →
      findClose s.src (s.pos + 1) = some m →
      m ≠ s.pos + 1 →
      (isValidDelimiter s.src s.posMax m).can_close = true →
      math_inline s false =
        (true, { s with
                 pos := m + 1,
                 tokens := s.tokens ++
                   [{ type := "math_inline", tag := "math", nesting := 0, markup := "$",
                      content := String.mk (jsSlice s.src ((s.pos + 1 : Nat) : Int) (m : Int)) }] })) := by
  constructor
  · exact findClose_some_iff
  · intro s m h1 h2 h3 h4 h5
    simp only [math_inline]
    rw [if_neg (not_not_intro h1)]
    rw [if_neg (by simp [h2])]
    simp only [h3]
    rw [if_neg (by omega)]
    rw [if_neg (by simp [h5])]
    simp

theorem math_inline_search_commit_witness :
    math_inline { src := ("$a$").data, pos := 0, posMax := 3, pending := "", tokens := [] } false
      = (true, { src := ("$a$").data, pos := 3, posMax := 3, pending := "",
                 tokens := [{ type := "math_inline", tag := "math", nesting := 0, markup := "$",
                              content := "a" }] }) := by
  have h := math_inline_search_commit.2
    { src := ("$a$").data, pos := 0, posMax := 3, pending := "", tokens := [] } 2
    (by decide) (by decide) (by decide) (by decide) (by decide)
  exact h.trans (by decide)

theorem blockLoopAux_stop (s : BlockState) (endLine : Nat) :
    ∀ (fuel next j : Nat), endLine ≤ fuel + next → next < j → j < endLine →
      stopCond s j →
      (∀ k, next < k → k < j → ¬ stopCond s k ∧ ¬ closeCond s k) →
      blockLoopAux s endLine fuel next = (j, none) := by
  intro fuel
  induction fuel with
  | zero =>
    intro next j hle h1 h2 _ _
    omega
  | succ fuel ih =>
    intro next j hle h1 h2 hstop hmid
    simp only [blockLoopAux]
    rcases Nat.eq_or_lt_of_le h1 with rfl | hlt
    · rw [if_neg (by omega), if_pos hstop]
    · have hk := hmid (next + 1) (by omega) (by omega)
      rw [if_neg (by omega), if_neg hk.1, if_neg hk.2]
      exact ih (next + 1) j (by omega) (by omega) h2 hstop
        (fun k hk1 hk2 => hmid k (by omega) hk2)

theorem blockLoopAux_exhaust (s : BlockState) (endLine : Nat) :
    ∀ (fuel next : Nat), endLine ≤ fuel + next → next < endLine →
      (∀ k, next < k → k < endLine → ¬ stopCond s k ∧ ¬ closeCond s k) →
      blockLoopAux s endLine fuel next = (endLine, none) := by
  intro fuel
  induction fuel with
  | zero =>
    intro next hle h1 _
    omega
  | succ fuel ih =>
    intro next hle h1 hmid
    simp only [blockLoopAux]
    by_cases hend : endLine ≤ next + 1
    · rw [if_pos hend]
      have : next + 1 = endLine := by omega
      rw [this]
    · have hk := hmid (next + 1) (by omega) (by omega)
      rw [if_neg hend, if_neg hk.1, if_neg hk.2]
      exact ih (next + 1) (by omega) (by omega)
        (fun k hk1 hk2 => hmid k (by omega) hk2)

/-- C4 counterexample.  For the block state with an indented opener and
an underindented non-empty next line (line 1), the commit scan stops
without a close but sets the line pointer to 2, one past the offending
line, and the emitted token maps lines 0 to 2, including that line; the
claim would require the pointer to stay at 1 and the map to exclude
line 1. -/
theorem math_block_indent_stop_cex :
    (math_block cexStop 0 2 false).2.line = 2
    ∧ ¬ ((math_block cexStop 0 2 false).2.line ≤ 1)
    ∧ (math_block cexStop 0 2 false).2.tokens.map (fun t => t.map) = [(0, 2)] := by
  decide

/-- C4 amended.  When the commit scan, after an opener line that does not
close itself, meets as first event a non-empty line j whose indentation
is below the enclosing requirement, it stops without finding a close and
the token content exludes line j (the middle lines run only up to j),
but the line pointer is set to j + 1 and the token map is (start, j + 1),
so the offending line is skipped by the line pointer and included in the
map range rather than left unconsumed. -/
theorem math_block_indent_stop (s : BlockState) (start endLine j : Nat)
    (h1 : lineStart s start + 2 ≤ lineEnd s start)
    (h2 : jsSlice s.src (lineStart s start : Int) ((lineStart s start : Int) + 2) = ['$', '$'])
    (h3 : ¬ (jsSliceFrom (jsTrim (jsSlice s.src ((lineStart s start : Int) + 2)
            (lineEnd s start : Int))) (-2) = ['$', '$']))
    (h4 : start < j) (h5 : j < endLine) (h6 : stopCond s j)
    (h7 : ∀ k, start < k → k < j → ¬ stopCond s k ∧ ¬ closeCond s k) :
    math_block s start endLine false =
      (true, { s with
               line := j + 1,
               tokens := s.tokens ++
                 [mkBlockToken s start j
                   (jsSlice s.src ((lineStart s start : Int) + 2) (lineEnd s start : Int))
                   none] }) := by
  have hloop : blockLoop s endLine start = (j, none) :=
    blockLoopAux_stop s endLine (endLine + 1) start j (by omega) h4 h5 h6 h7
  simp only [math_block]
  rw [if_neg (by omega)]
  rw [if_neg (not_not_intro h2)]
  rw [if_neg (by simp)]
  rw [if_neg h3]
  simp [hloop]

theorem math_block_indent_stop_witness :
    math_block cexStop 0 2 false =
      (true, { cexStop with
               line := 2,
               tokens := cexStop.tokens ++
                 [mkBlockToken cexStop 0 1
                   (jsSlice cexStop.src ((lineStart cexStop 0 : Int) + 2) (lineEnd cexStop 0 : Int))
                   none] }) :=
  math_block_indent_stop cexStop 0 2 1 (by decide) (by decide) (by decide) (by decide)
    (by decide) (by decide) (fun k hk1 hk2 => absurd hk1 (by omega))

/-- C5 counterexample.  For the two-line container holding the opener and
the line foo, with the line range of the rule call ending at 2, the
commit scan emits a token with content foo and newline as claimed, but
its map is (0, 3) and the final line pointer is 3, so the token line
range ends one past the container rather than at the container. -/
theorem math_block_unterminated_cex :
    (math_block fooState 0 2 false).2.tokens.map (fun t => (t.content, t.map))
      = [("foo\n", (0, 3))]
    ∧ (math_block fooState 0 2 false).2.line ≠ 2 := by
  decide

/-- C5 amended.  First conjunct: a commit scan whose line loop exhausts
the available range without a stop and without a close still accepts the
block and emits a token, with no error, the content being the dedented
scanned lines; the final line pointer is endLine + 1 and the token map is
(start, endLine + 1), one past the container line range.  Second
conjunct: on the concrete unterminated input of dollars then foo the
content is foo with a trailing newline. -/
theorem math_block_unterminated :
    (∀ (s : BlockState) (start endLine : Nat),
      lineStart s start + 2 ≤ lineEnd s start →
      jsSlice s.src (lineStart s start : Int) ((lineStart s start : Int) + 2) = ['$', '$'] →
      ¬ (jsSliceFrom (jsTrim (jsSlice s.src ((lineStart s start : Int) + 2)
            (lineEnd s start : Int))) (-2) = ['$', '$']) →
      start < endLine →
      (∀ k, start < k → k < endLine → ¬ stopCond s k ∧ ¬ closeCond s k) →
      math_block s start endLine false =
        (true, { s with
                 line := endLine + 1,
                 tokens := s.tokens ++
                   [mkBlockToken s start endLine
                     (jsSlice s.src ((lineStart s start : Int) + 2) (lineEnd s start : Int))
                     none] }))
    ∧ ((math_block fooState 0 2 false).1 = true
        ∧ (math_block fooState 0 2 false).2.tokens.map (fun t => (t.content, t.map))
            = [("foo\n", (0, 3))]) := by
  constructor
  · intro s start endLine h1 h2 h3 h4 hmid
    have hloop : blockLoop s endLine start = (endLine, none) :=
      blockLoopAux_exhaust s endLine (endLine + 1) start (by omega) h4 hmid
    simp only [math_block]
    rw [if_neg (by omega)]
    rw [if_neg (not_not_intro h2)]
    rw [if_neg (by simp)]
    rw [if_neg h3]
    simp [hloop]
  · exact ⟨by decide, by decide⟩

theorem math_block_unterminated_witness :
    math_block fooState 0 2 false =
      (true, { fooState with
               line := 3,
               tokens := fooState.tokens ++
                 [mkBlockToken fooState 0 2
                   (jsSlice fooState.src ((lineStart fooState 0 : Int) + 2) (lineEnd fooState 0 : Int))
                   none] }) :=
  math_block_unterminated.1 fooState 0 2 (by decide) (by decide) (by decide) (by decide)
    (fun k hk1 hk2 => by
      have hk : k = 1 := by omega
      subst hk
      exact ⟨by decide, by decide⟩)

/-- C6 counterexample.  With the identity engine stub and default
options, the block renderer emits the wrapper with class katex-block,
not the class math-block the claim states. -/
theorem renderBlock_class_cex :
    renderBlock idEngine (applyDefaults opts0) () ("E=mc^2")
        = Except.ok ("<div class=\"katex-block\">\nE=mc^2\n</div>\n")
    ∧ renderBlock idEngine (applyDefaults opts0) () ("E=mc^2")
        ≠ Except.ok ("<div class=\"math-block\">\nE=mc^2\n</div>\n") := by
  refine ⟨rfl, fun hcon => ?_⟩
  rw [(rfl : renderBlock idEngine (applyDefaults opts0) () ("E=mc^2")
        = Except.ok ("<div class=\"katex-block\">\nE=mc^2\n</div>\n"))] at hcon
  exact absurd (Except.ok.inj hcon) (by decide)

/-- C6 amended.  For every block token whose content the engine renders
successfully, the block renderer returns exactly the opening angle
bracket, the wrapper tag, the attribute class equal to katex-block, a
newline, the engine output, a newline, the closing tag and a final
newline, the wrapper tag defaulting to div when not configured. -/
theorem renderBlock_success_format {Env : Type} (engine : Engine) (options : Options Env)
    (env : Env) (maths rendered : String)
    (h : engine maths (resolveThrowOnError options.throwOnError env) true
          = EngineResult.ok rendered) :
    renderBlock engine (applyDefaults options) env maths =
      Except.ok ("<" ++ options.blockWrapper.getD ("div") ++ " class=\"katex-block\">\n"
        ++ rendered ++ "\n</" ++ options.blockWrapper.getD ("div") ++ ">\n") := by
  simp [renderBlock, applyDefaults, jsStr, h]

theorem renderBlock_success_format_witness :
    renderBlock idEngine (applyDefaults opts0) () ("E=mc^2")
      = Except.ok ("<div class=\"katex-block\">\nE=mc^2\n</div>\n") :=
  (renderBlock_success_format idEngine opts0 () ("E=mc^2") ("E=mc^2") rfl).trans
    (congrArg Except.ok (by decide))

/-- C7 counterexample.  With a failing engine, throw_on_error unset
(resolving to false) and no configured error colour, the inline renderer
raises the TypeError of escaping an undefined value instead of
returning fallback markup, so it does not raise if and only if the
resolved flag is true. -/
theorem renderInline_throw_without_flag_cex :
    resolveThrowOnError opts0.throwOnError () = false
    ∧ renderInline errEngine opts0 () ("x")
        = Except.error (RenderFailure.typeError "TypeError: options.errorColor is undefined") :=
  ⟨rfl, rfl⟩

/-- C7 amended.  When the engine raises, the renderer propagates the
engine error carrying the raw content as source whenever the resolved
throw_on_error flag is true; when the flag is false and an error colour
is configured, it returns the fallback span with class katex-error, an
inline style whose colour is the HTML-escaped configured error colour, a
title equal to the HTML-escaped error description and a body equal to
the HTML-escaped raw content.  (When the flag is false and no error
colour is configured the fallback itself raises, see the safety claim.) -/
theorem renderInline_error_policy {Env : Type} (engine : Engine) (options : Options Env)
    (env : Env) (maths d : String)
    (h : engine maths (resolveThrowOnError options.throwOnError env) false
          = EngineResult.err d) :
    (resolveThrowOnError options.throwOnError env = true →
      renderInline engine options env maths
        = Except.error (RenderFailure.katexError d maths))
    ∧ (resolveThrowOnError options.throwOnError env = false →
      ∀ c, options.errorColor = some c →
        renderInline engine options env maths =
          Except.ok ("<span class=\"katex-error\" style=\"color:" ++ escapeHtml c
            ++ "\" title=\"" ++ escapeHtml d ++ "\">" ++ escapeHtml maths ++ "</span>")) := by
  constructor
  · intro ht
    rw [ht] at h
    simp [renderInline, ht, h]
  · intro hf c hc
    rw [hf] at h
    simp [renderInline, hf, h, hc]

theorem renderInline_error_policy_witness :
    renderInline errEngine { opts0 with errorColor := some ("#cc0000") } () ("x")
      = Except.ok ("<span class=\"katex-error\" style=\"color:#cc0000\" title=\"bad\">x</span>") :=
  ((renderInline_error_policy errEngine { opts0 with errorColor := some ("#cc0000") } ()
      ("x") ("bad") rfl).2 rfl ("#cc0000") rfl).trans (congrArg Except.ok (by decide))

/-- C9.  In the inline containment fallback the configured error colour
is itself HTML-escaped before being embedded in the style attribute, and
containment only succeeds when an error colour is configured: when the
engine fails, the resolved flag is false and the error colour is absent,
the fallback branch raises the TypeError of escaping an undefined value
instead of returning markup. -/
theorem renderInline_fallback_color {Env : Type} (engine : Engine) (options : Options Env)
    (env : Env) (maths d : String)
    (h1 : engine maths (resolveThrowOnError options.throwOnError env) false
          = EngineResult.err d)
    (h2 : resolveThrowOnError options.throwOnError env = false) :
    (options.errorColor = none →
      renderInline engine options env maths
        = Except.error (RenderFailure.typeError "TypeError: options.errorColor is undefined"))
    ∧ (∀ c, options.errorColor = some c →
      renderInline engine options env maths =
        Except.ok ("<span class=\"katex-error\" style=\"color:" ++ escapeHtml c
          ++ "\" title=\"" ++ escapeHtml d ++ "\">" ++ escapeHtml maths ++ "</span>")) := by
  constructor
  · intro hc
    rw [h2] at h1
    simp [renderInline, h2, h1, hc]
  · intro c hc
    rw [h2] at h1
    simp [renderInline, h2, h1, hc]

theorem renderInline_fallback_color_witness :
    renderInline errEngine opts0 () ("x")
      = Except.error (RenderFailure.typeError "TypeError: options.errorColor is undefined") :=
  (renderInline_fallback_color errEngine opts0 () ("x") ("bad") rfl rfl).1 rfl

/-- C8 counterexample.  With the identity engine stub and empty options
the legacy inline renderer returns the engine output unchanged while the
primary one appends a newline, so the two render functions are not
functionally identical. -/
theorem legacy_render_differs_cex :
    Legacy.katexInline idEngine opts0 ("x") = Except.ok ("x")
    ∧ renderInline idEngine opts0 () ("x") = Except.ok ("x\n")
    ∧ (Except.ok ("x") : Except RenderFailure String) ≠ Except.ok ("x\n") := by
  refine ⟨rfl, rfl, fun hcon => ?_⟩
  exact absurd (Except.ok.inj hcon) (by decide)

/-- C8 amended.  The scanning functions of the legacy variant are
definitionally identical to those of the primary implementation, so they
consume the same characters and emit the same tokens; its render
functions are not identical: already on a successful render of the text
x with the identity engine the outputs differ. -/
theorem legacy_scanners_identical_render_differs :
    (Legacy.isValidDelim = isValidDelimiter
      ∧ Legacy.math_inline = math_inline
      ∧ Legacy.math_block = math_block)
    ∧ Legacy.katexInline idEngine opts0 ("x") ≠ renderInline idEngine opts0 () ("x") := by
  refine ⟨⟨rfl, rfl, rfl⟩, fun hcon => ?_⟩
  rw [(rfl : Legacy.katexInline idEngine opts0 ("x") = Except.ok ("x")),
    (rfl : renderInline idEngine opts0 () ("x") = Except.ok ("x\n"))] at hcon
  exact absurd (Except.ok.inj hcon) (by decide)
